import Mathlib

/-!
Verification development for the batch execution engine of the
`openai-sora2-mcp-server` repository: a shallow embedding in Lean 4 of
`src/utils/batch-manager.ts` together with the parts of
`src/types/tools.ts`, `src/types/batch.ts`, `src/utils/path.ts` and
`src/utils/batch-config.ts` that it depends on.

Modelling conventions:
* JavaScript numbers used for money are modelled as `ℚ` (the pricing
  table holds exact decimals); counters and millisecond durations as `ℕ`.
* JavaScript `||` on numbers treats `0` as falsy and `??` replaces only
  `null`/`undefined`; both are modelled explicitly (`jsOrNat`, `Option.getD`).
* Strings are handled through their character lists; `String.prototype.includes`
  and `toLowerCase` are modelled char-wise.
* The asynchronous event loop is not modelled directly.  The per-job data
  flow of `executeBatch` is embedded as a pure function over an
  environment that records, for each job, how its scheduling turned out
  (`JobFate`): it ran (with the file-system contents observed when its
  output path was de-collided, and the behaviour of each execution
  attempt), it passed `semaphore.acquire()` after the timed-out flag was
  already set, or it never pushed a result before the batch finalized.
  The FIFO semaphore itself is modelled operationally as a labelled
  transition system (`semStep`).
* A rejected promise that escapes `executeBatch` is modelled as
  `Except.error`.
-/

namespace SoraBatch

/-- Predicate `leadsChars p l` : the char list `p` is an initial segment of `l`
(model of `String.prototype.startsWith` on char lists). -/
def leadsChars : List Char → List Char → Bool
  | [], _ => true
  | _ :: _, [] => false
  | a :: as, b :: bs => a == b && leadsChars as bs

/-- Predicate `containsChars hay pat` : `pat` occurs contiguously inside `hay`
(model of `String.prototype.includes`). -/
def containsChars : List Char → List Char → Bool
  | hay, pat =>
    leadsChars pat hay ||
      match hay with
      | [] => false
      | _ :: t => containsChars t pat

/-- Char-wise lower-casing (model of `String.prototype.toLowerCase`,
adequate for the ASCII retry patterns used by the program). -/
def lowerChars (l : List Char) : List Char := l.map Char.toLower

/-- Predicate `strContains s pat` : substring containment on strings. -/
def strContains (s pat : String) : Bool := containsChars s.toList pat.toList

/-! ## `src/types/tools.ts` -/

/-- The `MODELS` enumeration: `'sora-2' | 'sora-2-pro'`. -/
inductive Model where
  | sora2
  | sora2pro
deriving DecidableEq, Repr

/-- The `SIZES` enumeration of supported resolutions. -/
inductive Size where
  | s1920x1080
  | s1280x720
  | s1080x1920
  | s720x1280
  | s1080x1080
  | s480x480
deriving DecidableEq, Repr

/-- The string form of a `Size`, as it appears in the TypeScript union. -/
def sizeStr : Size → String
  | .s1920x1080 => "1920x1080"
  | .s1280x720 => "1280x720"
  | .s1080x1920 => "1080x1920"
  | .s720x1280 => "720x1280"
  | .s1080x1080 => "1080x1080"
  | .s480x480 => "480x480"

/-- Model of `DEFAULT_MODEL = 'sora-2'`. -/
def DEFAULT_MODEL : Model := .sora2

/-- Model of `DEFAULT_SIZE = '1280x720'`. -/
def DEFAULT_SIZE : Size := .s1280x720

/-- Model of `DEFAULT_SECONDS = 4`. -/
def DEFAULT_SECONDS : ℕ := 4

/-- One entry of the `PRICING` table: per-second price for the 720p tier,
an optional 1024p-tier price, and the default price. -/
structure PricingEntry where
  p720 : ℚ
  p1024 : Option ℚ
  pdefault : ℚ
deriving DecidableEq, Repr

/-- The `PRICING` table from `src/types/tools.ts`. -/
def PRICING : Model → PricingEntry
  | .sora2 => ⟨1/10, none, 1/10⟩
  | .sora2pro => ⟨3/10, some (1/2), 3/10⟩

/-- JavaScript `x || d` on an optionally-present number (`0` is falsy). -/
def jsOrNat (x : Option ℕ) (d : ℕ) : ℕ :=
  match x with
  | some v => if v = 0 then d else v
  | none => d

/-- JavaScript `x || d` on an optionally-present rational (`0` is falsy),
used for `(pricing as Record)['1024p'] || pricing.default`. -/
def jsOrQ (x : Option ℚ) (d : ℚ) : ℚ :=
  match x with
  | some v => if v = 0 then d else v
  | none => d

/-- Model of `calculateCost(model, seconds, size)` from `src/types/tools.ts`:
`is720p` holds when the size string contains `"720"` or `"480"`;
the per-second price is the 720p price in that case and otherwise the
`'1024p'` price `||` the default. -/
def calculateCost (model : Model) (seconds : ℚ) (size : Size) : ℚ :=
  let pricing := PRICING model
  let is720p := strContains (sizeStr size) "720" || strContains (sizeStr size) "480"
  let pricePerSecond := if is720p then pricing.p720 else jsOrQ pricing.p1024 pricing.pdefault
  pricePerSecond * seconds

/-! ## `src/types/batch.ts` -/

/-- Model of `BatchJobConfig`: one job entry of the batch configuration file. -/
structure BatchJobConfig where
  prompt : String
  output_path : Option String := none
  model : Option Model := none
  size : Option Size := none
  seconds : Option ℕ := none
  input_reference : Option String := none
  remix_video_id : Option String := none
deriving DecidableEq, Repr

/-- Model of `RetryPolicy` from `src/types/batch.ts`. -/
structure RetryPolicy where
  max_retries : Option ℕ := none
  retry_delay_ms : Option ℕ := none
  retry_on_errors : Option (List String) := none
deriving DecidableEq, Repr

/-- Model of `BatchConfig` from `src/types/batch.ts`. -/
structure BatchConfig where
  jobs : List BatchJobConfig
  output_dir : Option String := none
  max_concurrent : Option ℕ := none
  timeout : Option ℕ := none
  poll_interval : Option ℕ := none
  max_poll_attempts : Option ℕ := none
  retry_policy : Option RetryPolicy := none
  default_model : Option Model := none
  default_size : Option Size := none
  default_seconds : Option ℕ := none
deriving Repr

/-- The three terminal statuses of a `BatchJobResult`. -/
inductive JobStatus where
  | completed
  | failed
  | cancelled
deriving DecidableEq, Repr

/-- Model of `BatchJobResult` from `src/types/batch.ts` (ISO timestamp fields do
not exist on this type; `video_url`/`video_id` are carried through from
the generation result). -/
structure BatchJobResult where
  index : ℕ
  prompt : String
  status : JobStatus
  output_path : Option String := none
  video_url : Option String := none
  video_id : Option String := none
  error : Option String := none
  duration_ms : Option ℕ := none
  video_duration : Option ℕ := none
  is_remix : Option Bool := none
  is_image_to_video : Option Bool := none
deriving DecidableEq, Repr

/-- Model of `BatchResult` from `src/types/batch.ts`.  The wall-clock fields
`started_at` / `finished_at` / `total_duration_ms` are real-time readings
(`new Date()`) and are not modelled. -/
structure BatchResult where
  total : ℕ
  succeeded : ℕ
  failed : ℕ
  cancelled : ℕ
  results : List BatchJobResult
  estimated_cost : ℚ
deriving DecidableEq, Repr

/-- Model of `CostBreakdownItem` from `src/types/batch.ts`. -/
inductive JobKind where
  | text_to_video
  | image_to_video
  | remix
deriving DecidableEq, Repr

/-- One entry of the cost-estimate breakdown. -/
structure CostBreakdownItem where
  type : JobKind
  count : ℕ
  estimated_cost : ℚ
deriving DecidableEq, Repr

/-- Model of `CostEstimate` from `src/types/batch.ts`. -/
structure CostEstimate where
  total_jobs : ℕ
  estimated_min : ℚ
  estimated_max : ℚ
  breakdown : List CostBreakdownItem
deriving DecidableEq, Repr

/-- Model of `BATCH_DEFAULTS.max_concurrent = 2`. -/
def BATCH_DEFAULTS_max_concurrent : ℕ := 2

/-- Model of `BATCH_DEFAULTS.timeout = 1800000`. -/
def BATCH_DEFAULTS_timeout : ℕ := 1800000

/-- Model of `BATCH_DEFAULTS.retry_max_retries = 2`. -/
def BATCH_DEFAULTS_retry_max_retries : ℕ := 2

/-- Model of `BATCH_DEFAULTS.retry_delay_ms = 1000`. -/
def BATCH_DEFAULTS_retry_delay_ms : ℕ := 1000

/-- Model of `BATCH_DEFAULTS.retry_on_errors`. -/
def BATCH_DEFAULTS_retry_on_errors : List String :=
  ["rate_limit", "timeout", "429", "503", "500"]

/-! ## Path utilities (`src/utils/path.ts`, `src/utils/batch-config.ts`)

Node's `path` module is an external collaborator; it is modelled on
simple POSIX paths: `path.isAbsolute` tests for a leading `/`,
`path.join(dir, f)` concatenates with a `/` separator, `path.resolve`
resolves a relative path against the working directory (stripping a
single leading `./`); `.`/`..` collapsing is not modelled. -/

/-- Model of `path.isAbsolute` (POSIX). -/
def isAbsolutePath (p : String) : Bool :=
  match p.toList with
  | [] => false
  | c :: _ => c == '/'

/-- Model of `path.join(dir, f)` on simple paths. -/
def joinPath (dir f : String) : String :=
  if dir = "" then f else dir ++ "/" ++ f

/-- Strip a single leading `./` (the normalization step of `path.resolve`
that the batch code relies on for `./output`). -/
def stripDotSlash (p : String) : String :=
  match p.toList with
  | '.' :: '/' :: rest => String.mk rest
  | _ => p

/-- Model of `path.resolve(cwd, p)`. -/
def resolvePath (cwd p : String) : String :=
  if isAbsolutePath p then p else joinPath cwd (stripDotSlash p)

/-- Split a char list at its last occurrence of `sep`:
`breakLast sep l = some (before, after)`, or `none` when `sep` does not
occur. -/
def breakLast (sep : Char) : List Char → Option (List Char × List Char)
  | [] => none
  | c :: rest =>
    match breakLast sep rest with
    | some (pre, post) => some (c :: pre, post)
    | none => if c == sep then some ([], rest) else none

/-- Model of `path.dirname`. -/
def dirnamePath (p : String) : String :=
  match breakLast '/' p.toList with
  | some (pre, _) => String.mk pre
  | none => "."

/-- The basename portion of a path (chars after the last `/`). -/
def basenameChars (p : String) : List Char :=
  match breakLast '/' p.toList with
  | some (_, post) => post
  | none => p.toList

/-- Model of `path.extname`: the extension including the dot, `""` when
the basename has no dot (or only a leading dot). -/
def extnamePath (p : String) : String :=
  match breakLast '.' (basenameChars p) with
  | some ([], _) => ""
  | some (_, post) => String.mk ('.' :: post)
  | none => ""

/-- Model of `path.basename(p, ext)` as used by `generateUniqueFilePath`:
the basename with the extension stripped. -/
def baseNoExt (p : String) : String :=
  match breakLast '.' (basenameChars p) with
  | some ([], _) => String.mk (basenameChars p)
  | some (pre, _) => String.mk pre
  | none => String.mk (basenameChars p)

/-- The candidate `path.join(dir, baseName + "_" + counter + ext)` built
inside `generateUniqueFilePath`. -/
def uniqueCandidate (dir base ext : String) (counter : ℕ) : String :=
  joinPath dir (base ++ "_" ++ toString counter ++ ext)

/-- The `while (await fileExists(uniquePath))` loop of
`generateUniqueFilePath`, run against the snapshot `fs` of existing
files; `fuel` bounds the search (the loop terminates on a finite file
system because the candidates are pairwise distinct). -/
def uniqueLoop (fs : List String) (dir base ext : String) : ℕ → ℕ → String
  | counter, 0 => uniqueCandidate dir base ext counter
  | counter, fuel + 1 =>
    let c := uniqueCandidate dir base ext counter
    if fs.contains c then uniqueLoop fs dir base ext (counter + 1) fuel else c

/-- Model of `generateUniqueFilePath(filePath)` from `src/utils/path.ts`, with the
file system passed explicitly as the list `fs` of paths that exist at the
moment the checks run: return `filePath` when no file exists there,
otherwise the first `base_<counter><ext>` candidate not on disk. -/
def generateUniqueFilePath (fs : List String) (filePath : String) : String :=
  if fs.contains filePath then
    uniqueLoop fs (dirnamePath filePath) (baseNoExt filePath) (extnamePath filePath)
      1 (fs.length + 1)
  else filePath

/-- JavaScript truthiness of an optional string (`undefined` and `""`
are falsy). -/
def jsTruthy (o : Option String) : Bool :=
  match o with
  | some s => s ≠ ""
  | none => false

/-- The auto-generated filename stem chosen by `resolveOutputPath`:
`remixed` / `animated` / `generated` by job kind. -/
def autoStem (job : BatchJobConfig) : String :=
  if jsTruthy job.remix_video_id then "remixed"
  else if jsTruthy job.input_reference then "animated"
  else "generated"

/-- Model of `resolveOutputPath(job, index, outputDir, allowAnyPath)` from
`src/utils/batch-config.ts`; a thrown `Error` is `Except.error` carrying
its message, and `cwd` stands for `process.cwd()` inside `path.resolve`. -/
def resolveOutputPath (job : BatchJobConfig) (index : ℕ) (outputDir : String)
    (allowAnyPath : Bool) (cwd : String) : Except String String :=
  if jsTruthy job.output_path then
    let p := job.output_path.getD ""
    if isAbsolutePath p then
      if !allowAnyPath && !leadsChars (resolvePath cwd outputDir).toList p.toList then
        .error ("Job " ++ toString (index + 1) ++
          ": absolute output_path must be within output_dir. Use --allow-any-path to override.")
      else .ok p
    else .ok (joinPath outputDir p)
  else
    .ok (joinPath outputDir (autoStem job ++ "_" ++ toString (index + 1) ++ ".mp4"))

/-! ## The FIFO semaphore (`Semaphore` in `src/utils/batch-manager.ts`)

The class is modelled as a labelled transition system.  A state holds the
free-permit count, the FIFO queue of suspended `acquire()` callers and
the set of callers that have been admitted (their `acquire()` returned)
and have not yet called `release()`.  `semStep` is partial exactly where
the program cannot produce the event (a job acquires at most once and
releases only what it holds). -/

/-- A semaphore event: job `j` calls `acquire()` or `release()`. -/
inductive SemEvent where
  | acq (j : ℕ)
  | rel (j : ℕ)
deriving DecidableEq, Repr

/-- The observable state of the `Semaphore` object plus the set of
admitted-but-not-released callers. -/
structure SemState where
  permits : ℕ
  queue : List ℕ
  active : List ℕ
deriving DecidableEq, Repr

/-- The initial state `new Semaphore(k)`. -/
def semInit (k : ℕ) : SemState := ⟨k, [], []⟩

/-- One step of the semaphore:
`acquire` either takes a free permit and admits the caller immediately, or
appends the caller to the wait queue; `release` hands the permit to the
queue head when one is waiting (`queue.shift()` + `next()`) and otherwise
returns it to the pool (`permits++`). -/
def semStep (s : SemState) : SemEvent → Option SemState
  | .acq j =>
    if j ∈ s.active ∨ j ∈ s.queue then none
    else if s.permits > 0 then
      some { s with permits := s.permits - 1, active := j :: s.active }
    else
      some { s with queue := s.queue ++ [j] }
  | .rel j =>
    if j ∈ s.active then
      match s.queue with
      | next :: rest => some { s with queue := rest, active := next :: s.active.erase j }
      | [] => some { s with permits := s.permits + 1, active := s.active.erase j }
    else none

/-- Run a trace of semaphore events from a state (fails on an event the
program cannot produce). -/
def semRun (s : SemState) : List SemEvent → Option SemState
  | [] => some s
  | e :: es =>
    match semStep s e with
    | some s2 => semRun s2 es
    | none => none

/-! ## Retry logic (`shouldRetry`, `executeJobWithRetry`) -/

/-- Model of `shouldRetry(error, patterns)` from `src/utils/batch-manager.ts`:
case-insensitive substring match of the error message against the
configured trigger patterns. -/
def shouldRetry (errorMessage : String) (patterns : List String) : Bool :=
  patterns.any fun p => containsChars (lowerChars errorMessage.toList) (lowerChars p.toList)

/-- The successful payload returned by `generateVideo` / `remixVideo`
(`VideoGenerationResult` with `success: true`). -/
structure GenResult where
  output_path : Option String := none
  video_url : Option String := none
  video_id : Option String := none
  duration : Option ℕ := none
deriving DecidableEq, Repr

/-- The behaviour of one execution attempt of a job: either the work
resolves with a successful `GenResult` or it throws / resolves
unsuccessfully, which `executeJobWithRetry` turns into a thrown `Error`
with the given message; `timeMs` is the wall-clock time the attempt
takes. -/
structure AttemptSpec where
  result : Except String GenResult
  timeMs : ℕ

/-- The `retryPolicy` record computed at the top of `executeBatch`. -/
structure RetryPolicyEff where
  maxRetries : ℕ
  retryDelay : ℕ
  retryPatterns : List String

/-- The retry loop of `executeJobWithRetry`, instrumented: `att` gives
each attempt's behaviour, `remaining = maxRetries - attempt` counts the
retries still allowed, and `elapsed` accumulates `Date.now() - jobStartTime`
(attempt times plus `sleep(retryDelay)` waits).  Returns the final
`BatchJobResult` together with the number of attempts performed (ghost
instrumentation for verification; the second component does not exist in
the source). -/
def runAttempts (job : BatchJobConfig) (index : ℕ) (att : ℕ → AttemptSpec)
    (patterns : List String) (delay : ℕ) :
    ℕ → ℕ → ℕ → BatchJobResult × ℕ
  | attempt, remaining, elapsed =>
    match (att attempt).result with
    | .ok g =>
      ({ index := index + 1
         prompt := job.prompt
         status := .completed
         output_path := g.output_path
         video_url := g.video_url
         video_id := g.video_id
         duration_ms := some (elapsed + (att attempt).timeMs)
         video_duration := g.duration
         is_remix := some (jsTruthy job.remix_video_id)
         is_image_to_video := some (jsTruthy job.input_reference) }, 1)
    | .error msg =>
      match remaining with
      | r + 1 =>
        if shouldRetry msg patterns then
          let rec2 := runAttempts job index att patterns delay
            (attempt + 1) r (elapsed + (att attempt).timeMs + delay)
          (rec2.1, rec2.2 + 1)
        else
          ({ index := index + 1
             prompt := job.prompt
             status := .failed
             error := some msg
             duration_ms := some (elapsed + (att attempt).timeMs)
             is_remix := some (jsTruthy job.remix_video_id)
             is_image_to_video := some (jsTruthy job.input_reference) }, 1)
      | 0 =>
        ({ index := index + 1
           prompt := job.prompt
           status := .failed
           error := some msg
           duration_ms := some (elapsed + (att attempt).timeMs)
           is_remix := some (jsTruthy job.remix_video_id)
           is_image_to_video := some (jsTruthy job.input_reference) }, 1)

/-- Model of `executeJobWithRetry(job, index, outputPath, ...)`: the `for` loop
runs attempts `0 .. maxRetries`; a failure is retried after
`sleep(retryDelay)` exactly when `attempt < maxRetries` and
`shouldRetry(err, retryPatterns)`.  The work function (the
`generateVideo`/`remixVideo` call) receives the de-collided `outputPath`,
so the attempt oracle `att` is a function of that path. -/
def executeJobWithRetry (job : BatchJobConfig) (index : ℕ) (outputPath : String)
    (att : String → ℕ → AttemptSpec) (rp : RetryPolicyEff) : BatchJobResult × ℕ :=
  runAttempts job index (att outputPath) rp.retryPatterns rp.retryDelay 0 rp.maxRetries 0

/-! ## Effective per-job parameters (`job override || batch default || global default`) -/

/-- JavaScript `x || d` on an optional string (`""` is falsy). -/
def jsOrStr (x : Option String) (d : String) : String :=
  match x with
  | some s => if s = "" then d else s
  | none => d

/-- Model of `job.model || config.default_model || DEFAULT_MODEL`. -/
def effModel (cfg : BatchConfig) (job : BatchJobConfig) : Model :=
  (job.model <|> cfg.default_model).getD DEFAULT_MODEL

/-- Model of `job.size || config.default_size || DEFAULT_SIZE`. -/
def effSize (cfg : BatchConfig) (job : BatchJobConfig) : Size :=
  (job.size <|> cfg.default_size).getD DEFAULT_SIZE

/-- Model of `job.seconds || config.default_seconds || DEFAULT_SECONDS` (numeric
`||`, so an explicit `0` falls through). -/
def effSeconds (cfg : BatchConfig) (job : BatchJobConfig) : ℕ :=
  jsOrNat job.seconds (jsOrNat cfg.default_seconds DEFAULT_SECONDS)

/-- The `retryPolicy` record built at the top of `executeBatch`:
`config.retry_policy?.field ?? BATCH_DEFAULTS.field` — optional chaining
propagates an absent policy, and `??` substitutes the default only for a
missing field (an explicit empty `retry_on_errors` array is kept). -/
def effRetryPolicy (cfg : BatchConfig) : RetryPolicyEff where
  maxRetries := (cfg.retry_policy.bind (fun rp => rp.max_retries)).getD
    BATCH_DEFAULTS_retry_max_retries
  retryDelay := (cfg.retry_policy.bind (fun rp => rp.retry_delay_ms)).getD
    BATCH_DEFAULTS_retry_delay_ms
  retryPatterns := (cfg.retry_policy.bind (fun rp => rp.retry_on_errors)).getD
    BATCH_DEFAULTS_retry_on_errors

/-- Model of `config.output_dir || './output'` inside `executeBatch`. -/
def effOutputDir (cfg : BatchConfig) : String :=
  jsOrStr cfg.output_dir "./output"

/-! ## `executeBatch` (`src/utils/batch-manager.ts`)

Each job task runs `await semaphore.acquire(); try { ... } finally
{ semaphore.release(); }`.  The scheduling of the event loop is abstracted
into a per-job `JobFate`:

* `ran fs att` — the job passed the timed-out check and executed; `fs` is
  the set of files existing while `generateUniqueFilePath` probed the
  disk, and `att path n` is the behaviour of its `n`-th execution attempt
  (the work function receives the de-collided output path).
* `cancelledAtStart` — the job was admitted after the `timedOut` flag was
  set and pushed the `'Batch timed out before job started'` outcome.
* `unrecorded` — the job had pushed no outcome by the time the batch
  finalized (still queued on the semaphore, or still executing when the
  deadline plus the 5-second grace window elapsed); the finalization loop
  synthesizes its outcome.

The `try`/`finally` of a job task has no `catch`: an error thrown before
`executeJobWithRetry` (in particular by `resolveOutputPath`) rejects the
job promise, `Promise.all` rejects, and the `catch` around `Promise.race`
rethrows every error other than the internal timeout marker — modelled by
the `Except.error` short-circuit. -/

/-- How one job's scheduling turned out during the batch run. -/
inductive JobFate where
  | unrecorded
  | cancelledAtStart
  | ran (fs : List String) (att : String → ℕ → AttemptSpec)

/-- The body of one job task: the outcome it pushes into `results`
(`none` when it pushed nothing before finalization) and the output path
it reserved via `generateUniqueFilePath` (`none` when it never resolved
one); `Except.error` is the task rejecting. -/
def recordJob (cfg : BatchConfig) (allowAnyPath : Bool) (cwd : String)
    (env : ℕ → JobFate) (i : ℕ) :
    Except String (Option BatchJobResult × Option (ℕ × String)) :=
  match env i with
  | .unrecorded => .ok (none, none)
  | .cancelledAtStart =>
    .ok (some { index := i + 1
                prompt := (cfg.jobs.getD i { prompt := "" }).prompt
                status := .cancelled
                error := some "Batch timed out before job started" }, none)
  | .ran fs att =>
    match resolveOutputPath (cfg.jobs.getD i { prompt := "" }) i
        (effOutputDir cfg) allowAnyPath cwd with
    | .error e => .error e
    | .ok outputPath =>
      .ok (some (executeJobWithRetry (cfg.jobs.getD i { prompt := "" }) i
             (generateUniqueFilePath fs outputPath) att (effRetryPolicy cfg)).1,
           some (i, generateUniqueFilePath fs outputPath))

/-- Collect the outcomes pushed by the job tasks, stopping at the first
rejected task (whose error escapes `executeBatch`). -/
def recordList (cfg : BatchConfig) (allowAnyPath : Bool) (cwd : String)
    (env : ℕ → JobFate) : List ℕ → Except String (List BatchJobResult)
  | [] => .ok []
  | i :: rest =>
    match recordJob cfg allowAnyPath cwd env i with
    | .error e => .error e
    | .ok (r?, _) =>
      match recordList cfg allowAnyPath cwd env rest with
      | .error e => .error e
      | .ok rs =>
        .ok (match r? with
             | some r => r :: rs
             | none => rs)

/-- The output paths reserved during a batch run, as `(job index, path)`
events, one per job that reached `generateUniqueFilePath`. -/
def resolutionEvents (cfg : BatchConfig) (allowAnyPath : Bool) (cwd : String)
    (env : ℕ → JobFate) : List (ℕ × String) :=
  (List.range cfg.jobs.length).filterMap fun i =>
    match recordJob cfg allowAnyPath cwd env i with
    | .ok (_, res) => res
    | .error _ => none

/-- The outcome pushed into `results` by job `i` (`none` when the job
pushed nothing, or when its task rejected instead of pushing). -/
def recOf (cfg : BatchConfig) (allowAnyPath : Bool) (cwd : String)
    (env : ℕ → JobFate) (i : ℕ) : Option BatchJobResult :=
  match recordJob cfg allowAnyPath cwd env i with
  | .ok (r?, _) => r?
  | .error _ => none

/-- The `cancelled` outcome synthesized by the finalization loop for a
job index with no recorded outcome. -/
def synRecord (cfg : BatchConfig) (i : ℕ) : BatchJobResult where
  index := i + 1
  prompt := (cfg.jobs.getD i { prompt := "" }).prompt
  status := .cancelled
  error := some "Batch timed out or cancelled"

/-- The `// Mark any remaining jobs as cancelled` loop of `executeBatch`:
for every `i`, when `i + 1` is not among the recorded indices, push a
`cancelled` outcome with error `'Batch timed out or cancelled'`. -/
def synthesizeCancelled (cfg : BatchConfig) (recorded : List BatchJobResult) :
    List BatchJobResult :=
  (List.range cfg.jobs.length).filterMap fun i =>
    if (recorded.map fun r => r.index).contains (i + 1) then none
    else some (synRecord cfg i)

/-- JavaScript truthiness of an optional number (`undefined` and `0` are
falsy), for `result.video_duration`. -/
def jsTruthyNat (o : Option ℕ) : Bool :=
  match o with
  | some v => v ≠ 0
  | none => false

/-- Model of `calculateTotalCost(results, config)`: sum `calculateCost` over the
completed results carrying a truthy `video_duration`, looking the job up
by `result.index - 1`. -/
def calculateTotalCost (results : List BatchJobResult) (cfg : BatchConfig) : ℚ :=
  results.foldl
    (fun total r =>
      if r.status = .completed ∧ jsTruthyNat r.video_duration then
        let job := cfg.jobs.getD (r.index - 1) { prompt := "" }
        total + calculateCost (effModel cfg job)
          ((r.video_duration.getD 0 : ℕ) : ℚ) (effSize cfg job)
      else total)
    0

/-- The comparator `(a, b) => a.index - b.index` of the final
`results.sort` (ascending by index).  `Array.prototype.sort` is a stable
sort; it is modelled by insertion sort. -/
def byIndexLe (a b : BatchJobResult) : Prop := a.index ≤ b.index

instance : DecidableRel byIndexLe := fun a b => Nat.decLe a.index b.index

instance : IsTotal BatchJobResult byIndexLe := ⟨fun a b => Nat.le_total a.index b.index⟩

instance : IsTrans BatchJobResult byIndexLe := ⟨fun _ _ _ => Nat.le_trans⟩

/-- Model of `executeBatch(config, options)`: run the job tasks (under the fates
`env`), synthesize `cancelled` outcomes for unrecorded indices, sort by
index, and aggregate the counts and total cost.  `Except.error` is
`executeBatch` itself rejecting (a job task threw outside
`executeJobWithRetry`). -/
def executeBatch (cfg : BatchConfig) (allowAnyPath : Bool) (cwd : String)
    (env : ℕ → JobFate) : Except String BatchResult :=
  match recordList cfg allowAnyPath cwd env (List.range cfg.jobs.length) with
  | .error e => .error e
  | .ok recorded =>
    let results :=
      (recorded ++ synthesizeCancelled cfg recorded).insertionSort byIndexLe
    .ok { total := cfg.jobs.length
          succeeded := (results.filter fun r => decide (r.status = .completed)).length
          failed := (results.filter fun r => decide (r.status = .failed)).length
          cancelled := (results.filter fun r => decide (r.status = .cancelled)).length
          results := results
          estimated_cost := calculateTotalCost results cfg }

/-! ## `estimateBatchCost` -/

/-- The six accumulators of the `estimateBatchCost` loop. -/
structure EstAcc where
  textToVideoCount : ℕ := 0
  imageToVideoCount : ℕ := 0
  remixCount : ℕ := 0
  textToVideoCost : ℚ := 0
  imageToVideoCost : ℚ := 0
  remixCost : ℚ := 0
deriving DecidableEq, Repr

/-- One iteration of the `for (const job of config.jobs)` loop of
`estimateBatchCost`: classify the job (remix, then image-to-video, then
text-to-video) and accumulate its nominal cost. -/
def estStep (cfg : BatchConfig) (acc : EstAcc) (job : BatchJobConfig) : EstAcc :=
  let cost := calculateCost (effModel cfg job) ((effSeconds cfg job : ℕ) : ℚ)
    (effSize cfg job)
  if jsTruthy job.remix_video_id then
    { acc with remixCount := acc.remixCount + 1, remixCost := acc.remixCost + cost }
  else if jsTruthy job.input_reference then
    { acc with imageToVideoCount := acc.imageToVideoCount + 1
               imageToVideoCost := acc.imageToVideoCost + cost }
  else
    { acc with textToVideoCount := acc.textToVideoCount + 1
               textToVideoCost := acc.textToVideoCost + cost }

/-- Model of `estimateBatchCost(config)`: accumulate per-kind counts and nominal
costs, build the breakdown (only non-empty kinds, in text / image / remix
order), and report `[0.9 × total, 1.2 × total]`. -/
def estimateBatchCost (cfg : BatchConfig) : CostEstimate :=
  let acc := cfg.jobs.foldl (estStep cfg) {}
  let breakdown :=
    (if acc.textToVideoCount > 0 then
      [CostBreakdownItem.mk .text_to_video acc.textToVideoCount acc.textToVideoCost]
     else []) ++
    (if acc.imageToVideoCount > 0 then
      [CostBreakdownItem.mk .image_to_video acc.imageToVideoCount acc.imageToVideoCost]
     else []) ++
    (if acc.remixCount > 0 then
      [CostBreakdownItem.mk .remix acc.remixCount acc.remixCost]
     else [])
  let totalEstimate := acc.textToVideoCost + acc.imageToVideoCost + acc.remixCost
  { total_jobs := cfg.jobs.length
    estimated_min := totalEstimate * 0.9
    estimated_max := totalEstimate * 1.2
    breakdown := breakdown }

/-- The nominal (pre-margin) total cost of a batch: the sum of
`calculateCost` over the jobs at their effective parameters. -/
def nominalTotal (cfg : BatchConfig) : ℚ :=
  (cfg.jobs.map fun job =>
    calculateCost (effModel cfg job) ((effSeconds cfg job : ℕ) : ℚ) (effSize cfg job)).sum

/-- A batch configuration whose `retry_policy` carries an explicitly
empty `retry_on_errors` list (a concrete verification input). -/
def cfgEmptyRetry : BatchConfig :=
  { jobs := [], retry_policy := some { retry_on_errors := some [] } }

/-- A one-job batch configuration (a concrete verification input). -/
def cfgOneJob : BatchConfig := { jobs := [{ prompt := "a" }] }

/-- The fate assignment in which no job records an outcome before the
batch finalizes (every job still queued or running when the deadline and
the 5-second grace window elapsed). -/
def envUnrecorded : ℕ → JobFate := fun _ => .unrecorded

/-- The fate assignment in which every job runs against an empty file
system and fails each attempt with a non-retryable message. -/
def envRanFail : ℕ → JobFate := fun _ => .ran [] (fun _ _ => ⟨.error "boom", 1⟩)

/-- The report `executeBatch` produces for `cfgOneJob` under
`envUnrecorded`. -/
def batchResultOne : BatchResult :=
  { total := 1
    succeeded := 0
    failed := 0
    cancelled := 1
    results := [{ index := 1
                  prompt := "a"
                  status := .cancelled
                  error := some "Batch timed out or cancelled" }]
    estimated_cost := 0 }

/-- A one-job batch whose job demands an absolute output path outside
the output directory (a concrete verification input). -/
def cfgEvil : BatchConfig :=
  { jobs := [{ prompt := "a", output_path := some "/etc/evil.mp4" }] }

/-- The fate assignment in which every job runs against an empty file
system and succeeds immediately. -/
def envRanOk : ℕ → JobFate := fun _ => .ran [] (fun _ _ => ⟨.ok {}, 0⟩)

/-- A three-job batch: two jobs requesting the same relative output path
and a third with no requested path (a concrete verification input). -/
def cfgDup : BatchConfig :=
  { jobs := [{ prompt := "a", output_path := some "v.mp4" },
             { prompt := "b", output_path := some "v.mp4" },
             { prompt := "c" }] }

/-- Fates for `cfgDup`: the first two jobs run concurrently against the
same (empty) file-system snapshot; the third is admitted only after the
timed-out flag is set. -/
def envDup : ℕ → JobFate :=
  fun i => if i = 2 then .cancelledAtStart else .ran [] (fun _ _ => ⟨.ok {}, 1⟩)

/-- The work-function behaviour of the C4 scenario: the first two
attempts fail with the given messages (taking `t0` / `t1` ms), every
later attempt succeeds with `g` (taking `t2` ms). -/
def attempts429 (msg0 msg1 : String) (g : GenResult) (t0 t1 t2 : ℕ) :
    String → ℕ → AttemptSpec :=
  fun _ n =>
    if n = 0 then ⟨.error msg0, t0⟩
    else if n = 1 then ⟨.error msg1, t1⟩
    else ⟨.ok g, t2⟩

/-- The semaphore invariant: free permits plus admitted holders always
equal the initial permit count `k`, a non-empty wait queue implies no
free permit, and no caller appears twice across the holder set and the
queue. -/
def SemInv (k : ℕ) (s : SemState) : Prop :=
  s.permits + s.active.length = k ∧
  (s.queue ≠ [] → s.permits = 0) ∧
  (s.active ++ s.queue).Nodup

/-! ## Lemmas about the retry loop -/

/-- Every outcome produced by the retry loop carries the 1-based job
index. -/
theorem runAttempts_fst_index (job : BatchJobConfig) (i : ℕ) (att : ℕ → AttemptSpec)
    (pats : List String) (d : ℕ) :
    ∀ (r j e : ℕ), ((runAttempts job i att pats d j r e).1).index = i + 1 := by
  intro r
  induction r with
  | zero =>
    intro j e
    unfold runAttempts
    cases hres : (att j).result <;> simp
  | succ r ih =>
    intro j e
    unfold runAttempts
    cases hres : (att j).result with
    | ok g => simp
    | error msg =>
      by_cases hs : shouldRetry msg pats
      · simpa [hs] using ih (j + 1) (e + (att j).timeMs + d)
      · simp [hs]

/-- The retry loop performs at most `remaining + 1` attempts. -/
theorem runAttempts_count_le (job : BatchJobConfig) (i : ℕ) (att : ℕ → AttemptSpec)
    (pats : List String) (d : ℕ) :
    ∀ (r j e : ℕ), (runAttempts job i att pats d j r e).2 ≤ r + 1 := by
  intro r
  induction r with
  | zero =>
    intro j e
    unfold runAttempts
    cases hres : (att j).result <;> simp
  | succ r ih =>
    intro j e
    unfold runAttempts
    cases hres : (att j).result with
    | ok g => simp
    | error msg =>
      by_cases hs : shouldRetry msg pats
      · have := ih (j + 1) (e + (att j).timeMs + d)
        simp only [hs, if_true]
        omega
      · simp [hs]

/-- The final outcome's `duration_ms` is present and at least the elapsed
time accumulated before the current attempt. -/
theorem runAttempts_duration_ge (job : BatchJobConfig) (i : ℕ) (att : ℕ → AttemptSpec)
    (pats : List String) (d : ℕ) :
    ∀ (r j e : ℕ), ∃ D, ((runAttempts job i att pats d j r e).1).duration_ms = some D ∧
      e ≤ D := by
  intro r
  induction r with
  | zero =>
    intro j e
    unfold runAttempts
    cases hres : (att j).result with
    | ok g => exact ⟨e + (att j).timeMs, by simp, Nat.le_add_right e _⟩
    | error msg => exact ⟨e + (att j).timeMs, by simp, Nat.le_add_right e _⟩
  | succ r ih =>
    intro j e
    unfold runAttempts
    cases hres : (att j).result with
    | ok g => exact ⟨e + (att j).timeMs, by simp, Nat.le_add_right e _⟩
    | error msg =>
      by_cases hs : shouldRetry msg pats
      · obtain ⟨D, hD, hle⟩ := ih (j + 1) (e + (att j).timeMs + d)
        refine ⟨D, by simpa [hs] using hD, by omega⟩
      · exact ⟨e + (att j).timeMs, by simp [hs], Nat.le_add_right e _⟩

/-- The retry loop performs at least one attempt. -/
theorem runAttempts_count_pos (job : BatchJobConfig) (i : ℕ) (att : ℕ → AttemptSpec)
    (pats : List String) (d : ℕ) (r j e : ℕ) :
    1 ≤ (runAttempts job i att pats d j r e).2 := by
  cases r with
  | zero =>
    unfold runAttempts
    cases hres : (att j).result <;> simp
  | succ r =>
    unfold runAttempts
    cases hres : (att j).result with
    | ok g => simp
    | error msg =>
      by_cases hs : shouldRetry msg pats <;> simp [hs]

/-- A failure whose message does not match the trigger patterns is final
immediately, whatever the remaining retry budget. -/
theorem runAttempts_no_match_final (job : BatchJobConfig) (i : ℕ)
    (att : ℕ → AttemptSpec) (pats : List String) (d : ℕ) (r j e : ℕ) (msg : String)
    (hres : (att j).result = .error msg) (hno : shouldRetry msg pats = false) :
    runAttempts job i att pats d j r e =
      ({ index := i + 1
         prompt := job.prompt
         status := .failed
         error := some msg
         duration_ms := some (e + (att j).timeMs)
         is_remix := some (jsTruthy job.remix_video_id)
         is_image_to_video := some (jsTruthy job.input_reference) }, 1) := by
  cases r with
  | zero => unfold runAttempts; rw [hres]
  | succ r => unfold runAttempts; rw [hres]; simp [hno]

/-- C3.  A failed attempt is retried (after the configured wait) exactly
when the error message matches a trigger pattern case-insensitively and
attempts remain:
(1) at most `maxRetries + 1` attempts are ever performed (so
`max_retries = 2` allows at most 3);
(2) a failure matching no pattern is final after the first attempt with
the raw error message, regardless of `maxRetries`;
(3) a matching failure with attempts remaining is retried: at least two
attempts happen and the final elapsed time includes the first attempt
plus the `retryDelayMs` wait;
(4) a matching failure with no attempts remaining is final with the raw
message. -/
theorem executeJobWithRetry_classification :
    (∀ (job : BatchJobConfig) (i : ℕ) (path : String) (att : String → ℕ → AttemptSpec)
       (rp : RetryPolicyEff),
       (executeJobWithRetry job i path att rp).2 ≤ rp.maxRetries + 1) ∧
    (∀ (job : BatchJobConfig) (i : ℕ) (path : String) (att : String → ℕ → AttemptSpec)
       (rp : RetryPolicyEff) (msg : String),
       (att path 0).result = .error msg → shouldRetry msg rp.retryPatterns = false →
       (executeJobWithRetry job i path att rp).1.status = .failed ∧
       (executeJobWithRetry job i path att rp).1.error = some msg ∧
       (executeJobWithRetry job i path att rp).2 = 1) ∧
    (∀ (job : BatchJobConfig) (i : ℕ) (path : String) (att : String → ℕ → AttemptSpec)
       (rp : RetryPolicyEff) (msg : String),
       (att path 0).result = .error msg → shouldRetry msg rp.retryPatterns = true →
       1 ≤ rp.maxRetries →
       2 ≤ (executeJobWithRetry job i path att rp).2 ∧
       ∃ D, (executeJobWithRetry job i path att rp).1.duration_ms = some D ∧
         (att path 0).timeMs + rp.retryDelay ≤ D) ∧
    (∀ (job : BatchJobConfig) (i : ℕ) (path : String) (att : String → ℕ → AttemptSpec)
       (d : ℕ) (pats : List String) (msg : String),
       (att path 0).result = .error msg →
       (executeJobWithRetry job i path att ⟨0, d, pats⟩).1.status = .failed ∧
       (executeJobWithRetry job i path att ⟨0, d, pats⟩).1.error = some msg ∧
       (executeJobWithRetry job i path att ⟨0, d, pats⟩).2 = 1) := by
  refine ⟨?_, ?_, ?_, ?_⟩
  · intro job i path att rp
    exact runAttempts_count_le job i (att path) rp.retryPatterns rp.retryDelay
      rp.maxRetries 0 0
  · intro job i path att rp msg hres hno
    unfold executeJobWithRetry
    rw [runAttempts_no_match_final job i (att path) rp.retryPatterns rp.retryDelay
      rp.maxRetries 0 0 msg hres hno]
    exact ⟨rfl, rfl, rfl⟩
  · intro job i path att rp msg hres hyes hrem
    obtain ⟨m, hm⟩ : ∃ m, rp.maxRetries = m + 1 := ⟨rp.maxRetries - 1, by omega⟩
    unfold executeJobWithRetry
    rw [hm]
    unfold runAttempts
    rw [hres]
    simp only [hyes, if_true]
    constructor
    · have hpos := runAttempts_count_pos job i (att path) rp.retryPatterns rp.retryDelay
        m 1 (0 + (att path 0).timeMs + rp.retryDelay)
      exact Nat.succ_le_succ hpos
    · obtain ⟨D, hD, hle⟩ := runAttempts_duration_ge job i (att path) rp.retryPatterns
        rp.retryDelay m 1 (0 + (att path 0).timeMs + rp.retryDelay)
      exact ⟨D, hD, by omega⟩
  · intro job i path att d pats msg hres
    unfold executeJobWithRetry
    unfold runAttempts
    rw [hres]
    exact ⟨rfl, rfl, rfl⟩

/-- Witness for `executeJobWithRetry_classification` at a concrete
instance: one attempt failing with a non-matching message under
`maxRetries = 2` is final at once with the raw message. -/
theorem executeJobWithRetry_classification_witness :
    (executeJobWithRetry { prompt := "a" } 0 "p"
        (fun _ _ => ⟨.error "invalid prompt", 5⟩)
        ⟨2, 1000, BATCH_DEFAULTS_retry_on_errors⟩).1.status = .failed ∧
    (executeJobWithRetry { prompt := "a" } 0 "p"
        (fun _ _ => ⟨.error "invalid prompt", 5⟩)
        ⟨2, 1000, BATCH_DEFAULTS_retry_on_errors⟩).1.error = some "invalid prompt" ∧
    (executeJobWithRetry { prompt := "a" } 0 "p"
        (fun _ _ => ⟨.error "invalid prompt", 5⟩)
        ⟨2, 1000, BATCH_DEFAULTS_retry_on_errors⟩).2 = 1 :=
  executeJobWithRetry_classification.2.1 { prompt := "a" } 0 "p"
    (fun _ _ => ⟨.error "invalid prompt", 5⟩)
    ⟨2, 1000, BATCH_DEFAULTS_retry_on_errors⟩ "invalid prompt" rfl (by decide)

/-! ## Case-insensitive matching lemmas -/

/-- Mapping a function over both lists preserves the initial-segment
relation. -/
theorem leadsChars_map (f : Char → Char) :
    ∀ (p l : List Char), leadsChars p l = true →
      leadsChars (p.map f) (l.map f) = true := by
  intro p
  induction p with
  | nil => intro l h; simp [leadsChars]
  | cons a as ih =>
    intro l h
    cases l with
    | nil => simp [leadsChars] at h
    | cons b bs =>
      simp only [leadsChars, Bool.and_eq_true, beq_iff_eq] at h
      simp only [List.map_cons, leadsChars, Bool.and_eq_true, beq_iff_eq]
      exact ⟨by rw [h.1], ih bs h.2⟩

/-- Mapping a function over both lists preserves substring containment. -/
theorem containsChars_map (f : Char → Char) :
    ∀ (l p : List Char), containsChars l p = true →
      containsChars (l.map f) (p.map f) = true := by
  intro l
  induction l with
  | nil =>
    intro p h
    unfold containsChars at h ⊢
    cases p with
    | nil => simp [leadsChars]
    | cons c cs => simp [leadsChars] at h
  | cons c cs ih =>
    intro p h
    unfold containsChars at h ⊢
    rcases Bool.or_eq_true _ _ |>.mp h with hl | hr
    · exact Bool.or_eq_true _ _ |>.mpr (Or.inl (leadsChars_map f p (c :: cs) hl))
    · exact Bool.or_eq_true _ _ |>.mpr (Or.inr (ih p hr))

/-- An error message containing `"429"` matches the default retry
trigger set. -/
theorem shouldRetry_of_contains_429 (msg : String)
    (h : strContains msg "429" = true) :
    shouldRetry msg BATCH_DEFAULTS_retry_on_errors = true := by
  unfold shouldRetry BATCH_DEFAULTS_retry_on_errors
  refine List.any_eq_true.mpr ⟨"429", by simp, ?_⟩
  have h2 := containsChars_map Char.toLower msg.toList ("429".toList) h
  simpa [lowerChars] using h2

/-- C4.  `duration_ms` is measured from the start of the first attempt:
a work function failing twice with messages containing `"429"` and then
succeeding, under `max_retries = 2`, completes after 3 attempts with
total elapsed time `t0 + d + t1 + d + t2` — the two failed attempts and
both retry waits included — which is at least `2 × retryDelayMs`. -/
theorem executeJobWithRetry_elapsed_from_first_attempt
    (job : BatchJobConfig) (i : ℕ) (path : String) (g : GenResult)
    (msg0 msg1 : String) (t0 t1 t2 d : ℕ)
    (h0 : strContains msg0 "429" = true) (h1 : strContains msg1 "429" = true) :
    (executeJobWithRetry job i path (attempts429 msg0 msg1 g t0 t1 t2)
        ⟨2, d, BATCH_DEFAULTS_retry_on_errors⟩).1.status = .completed ∧
    (executeJobWithRetry job i path (attempts429 msg0 msg1 g t0 t1 t2)
        ⟨2, d, BATCH_DEFAULTS_retry_on_errors⟩).1.duration_ms =
      some (t0 + d + t1 + d + t2) ∧
    (executeJobWithRetry job i path (attempts429 msg0 msg1 g t0 t1 t2)
        ⟨2, d, BATCH_DEFAULTS_retry_on_errors⟩).2 = 3 ∧
    2 * d ≤ t0 + d + t1 + d + t2 := by
  have hr0 := shouldRetry_of_contains_429 msg0 h0
  have hr1 := shouldRetry_of_contains_429 msg1 h1
  refine ⟨?_, ?_, ?_, by omega⟩ <;>
    simp [executeJobWithRetry, runAttempts, attempts429, hr0, hr1, Nat.add_assoc]

/-- Witness for `executeJobWithRetry_elapsed_from_first_attempt` at a
concrete input. -/
theorem executeJobWithRetry_elapsed_witness :
    (executeJobWithRetry { prompt := "a" } 0 "p"
        (attempts429 "HTTP 429" "error 429 again" {} 5 6 7)
        ⟨2, 100, BATCH_DEFAULTS_retry_on_errors⟩).1.status = .completed ∧
    (executeJobWithRetry { prompt := "a" } 0 "p"
        (attempts429 "HTTP 429" "error 429 again" {} 5 6 7)
        ⟨2, 100, BATCH_DEFAULTS_retry_on_errors⟩).1.duration_ms =
      some (5 + 100 + 6 + 100 + 7) ∧
    (executeJobWithRetry { prompt := "a" } 0 "p"
        (attempts429 "HTTP 429" "error 429 again" {} 5 6 7)
        ⟨2, 100, BATCH_DEFAULTS_retry_on_errors⟩).2 = 3 ∧
    2 * 100 ≤ 5 + 100 + 6 + 100 + 7 :=
  executeJobWithRetry_elapsed_from_first_attempt { prompt := "a" } 0 "p" {}
    "HTTP 429" "error 429 again" 5 6 7 100 (by decide) (by decide)

/-! ## Cost estimator lemmas -/

/-- The three per-kind cost accumulators of the `estimateBatchCost` loop
always sum to the accumulated nominal cost of the jobs seen so far. -/
theorem estFold_cost_sum (cfg : BatchConfig) :
    ∀ (l : List BatchJobConfig) (acc : EstAcc),
      (l.foldl (estStep cfg) acc).textToVideoCost +
        (l.foldl (estStep cfg) acc).imageToVideoCost +
        (l.foldl (estStep cfg) acc).remixCost =
      acc.textToVideoCost + acc.imageToVideoCost + acc.remixCost +
        (l.map fun job => calculateCost (effModel cfg job)
          ((effSeconds cfg job : ℕ) : ℚ) (effSize cfg job)).sum := by
  intro l
  induction l with
  | nil => intro acc; simp
  | cons job rest ih =>
    intro acc
    simp only [List.foldl_cons, List.map_cons, List.sum_cons]
    rw [ih]
    unfold estStep
    by_cases h1 : jsTruthy job.remix_video_id
    · simp only [h1, if_true]; ring
    · by_cases h2 : jsTruthy job.input_reference
      · simp only [h1, h2, if_true, if_false, Bool.false_eq_true]; ring
      · simp only [h1, h2, if_false, Bool.false_eq_true]; ring

/-- C8.  `estimateBatchCost` reports `total_jobs = N`,
`estimated_min = 0.9 ×` the nominal total and `estimated_max = 1.2 ×`
the nominal total, where the nominal total sums
`pricePerSecond(model, resolution) × duration` over the jobs; and for a
single `sora-2` / `1280x720` / 8-second job the nominal cost is
`0.1 × 8 = 0.8` with estimate band `[0.72, 0.96]`. -/
theorem estimateBatchCost_band :
    (∀ cfg : BatchConfig,
      (estimateBatchCost cfg).total_jobs = cfg.jobs.length ∧
      (estimateBatchCost cfg).estimated_min = 0.9 * nominalTotal cfg ∧
      (estimateBatchCost cfg).estimated_max = 1.2 * nominalTotal cfg) ∧
    calculateCost DEFAULT_MODEL 8 Size.s1280x720 = 0.8 ∧
    estimateBatchCost
        { jobs := [{ prompt := "clip", model := some .sora2,
                     size := some .s1280x720, seconds := some 8 }] } =
      { total_jobs := 1
        estimated_min := 0.72
        estimated_max := 0.96
        breakdown := [⟨.text_to_video, 1, 0.8⟩] } := by
  have h720 : (strContains (sizeStr Size.s1280x720) "720" ||
      strContains (sizeStr Size.s1280x720) "480") = true := by decide
  refine ⟨?_, ?_, ?_⟩
  case refine_2 =>
    simp only [calculateCost, DEFAULT_MODEL, PRICING, h720, if_true]
    norm_num
  case refine_3 =>
    simp only [estimateBatchCost, estStep, List.foldl_cons, List.foldl_nil]
    norm_num [jsTruthy, effModel, effSize, effSeconds, jsOrNat, calculateCost,
      h720, PRICING, DEFAULT_MODEL]
  intro cfg
  have h2 : (cfg.jobs.foldl (estStep cfg) {}).textToVideoCost +
      (cfg.jobs.foldl (estStep cfg) {}).imageToVideoCost +
      (cfg.jobs.foldl (estStep cfg) {}).remixCost = nominalTotal cfg := by
    rw [estFold_cost_sum cfg cfg.jobs {}]
    unfold nominalTotal
    norm_num
  refine ⟨rfl, ?_, ?_⟩
  · show ((cfg.jobs.foldl (estStep cfg) {}).textToVideoCost +
        (cfg.jobs.foldl (estStep cfg) {}).imageToVideoCost +
        (cfg.jobs.foldl (estStep cfg) {}).remixCost) * 0.9 = 0.9 * nominalTotal cfg
    rw [h2]; ring
  · show ((cfg.jobs.foldl (estStep cfg) {}).textToVideoCost +
        (cfg.jobs.foldl (estStep cfg) {}).imageToVideoCost +
        (cfg.jobs.foldl (estStep cfg) {}).remixCost) * 1.2 = 1.2 * nominalTotal cfg
    rw [h2]; ring

/-- C9.  The cost estimator is a pure function of the configuration:
in the embedding its type is `BatchConfig → CostEstimate` with no state,
network or file-system component, so two calls on the same configuration
yield identical `CostEstimate` values. -/
theorem estimateBatchCost_idempotent :
    ∀ cfg : BatchConfig, estimateBatchCost cfg = estimateBatchCost cfg :=
  fun _ => rfl

/-- C10.  An explicitly empty `retry_policy.retry_on_errors` list is used
as-is (`??` only substitutes the default when the field is absent), and
with an empty trigger set no failure is ever retried: every failing first
attempt is final at once with the raw message, for every `max_retries`. -/
theorem emptyRetryPatternsNeverRetry :
    ∀ (cfg : BatchConfig) (rp : RetryPolicy),
      cfg.retry_policy = some rp → rp.retry_on_errors = some [] →
      (effRetryPolicy cfg).retryPatterns = [] ∧
      (∀ msg : String, shouldRetry msg (effRetryPolicy cfg).retryPatterns = false) ∧
      (∀ (job : BatchJobConfig) (i : ℕ) (path : String)
         (att : String → ℕ → AttemptSpec) (m d : ℕ) (msg : String),
         (att path 0).result = .error msg →
         (executeJobWithRetry job i path att
           ⟨m, d, (effRetryPolicy cfg).retryPatterns⟩).1.status = .failed ∧
         (executeJobWithRetry job i path att
           ⟨m, d, (effRetryPolicy cfg).retryPatterns⟩).1.error = some msg ∧
         (executeJobWithRetry job i path att
           ⟨m, d, (effRetryPolicy cfg).retryPatterns⟩).2 = 1) := by
  intro cfg rp hrp hempty
  have hpat : (effRetryPolicy cfg).retryPatterns = [] := by
    unfold effRetryPolicy
    simp [hrp, hempty]
  refine ⟨hpat, fun msg => by rw [hpat]; rfl, ?_⟩
  intro job i path att m d msg hres
  have hno : shouldRetry msg (effRetryPolicy cfg).retryPatterns = false := by
    rw [hpat]; rfl
  unfold executeJobWithRetry
  rw [runAttempts_no_match_final job i (att path) _ _ m 0 0 msg hres hno]
  exact ⟨rfl, rfl, rfl⟩

/-- Witness for `emptyRetryPatternsNeverRetry`: a configuration carrying
an explicit empty trigger list, and a job whose first attempt fails with
a message that would match every default pattern. -/
theorem emptyRetryPatternsNeverRetry_witness :
    (effRetryPolicy cfgEmptyRetry).retryPatterns = [] ∧
    (executeJobWithRetry { prompt := "a" } 0 "p"
        (fun _ _ => ⟨.error "rate_limit timeout 429 503 500", 5⟩)
        ⟨5, 100, (effRetryPolicy cfgEmptyRetry).retryPatterns⟩).2 = 1 := by
  have h := emptyRetryPatternsNeverRetry cfgEmptyRetry
    { retry_on_errors := some [] } rfl rfl
  exact ⟨h.1, (h.2.2 { prompt := "a" } 0 "p"
    (fun _ _ => ⟨.error "rate_limit timeout 429 503 500", 5⟩) 5 100
    "rate_limit timeout 429 503 500" rfl).2.2⟩

/-! ## Semaphore invariant -/

/-- The transition function `semStep` preserves the semaphore invariant. -/
theorem semStep_preserves {k : ℕ} {s s2 : SemState} {e : SemEvent}
    (hinv : SemInv k s) (hstep : semStep s e = some s2) : SemInv k s2 := by
  obtain ⟨hsum, hq, hnd⟩ := hinv
  cases e with
  | acq j =>
    unfold semStep at hstep
    by_cases hmem : j ∈ s.active ∨ j ∈ s.queue
    · simp [hmem] at hstep
    · by_cases hp : s.permits > 0
      · simp only [hmem, if_false, hp, if_true, Option.some.injEq] at hstep
        subst hstep
        refine ⟨by simp; omega, ?_, ?_⟩
        · intro hne
          exact absurd (hq hne) (by omega)
        · simp only [List.cons_append, List.nodup_cons]
          exact ⟨by simpa [List.mem_append] using hmem, hnd⟩
      · simp only [hmem, if_false, hp, Option.some.injEq] at hstep
        subst hstep
        refine ⟨by simpa using hsum, fun _ => by show s.permits = 0; omega, ?_⟩
        · rw [← List.append_assoc]
          refine List.Nodup.append hnd (List.nodup_singleton j) ?_
          intro x hx hx1
          rw [List.mem_singleton] at hx1
          subst hx1
          exact hmem (by simpa [List.mem_append] using hx)
  | rel j =>
    unfold semStep at hstep
    by_cases hmem : j ∈ s.active
    · rw [List.nodup_append] at hnd
      obtain ⟨hnda, hndq, hdisj⟩ := hnd
      cases hqe : s.queue with
      | cons next rest =>
        simp only [hmem, if_true, hqe, Option.some.injEq] at hstep
        subst hstep
        have hlen : (s.active.erase j).length = s.active.length - 1 :=
          List.length_erase_of_mem hmem
        have hael : 1 ≤ s.active.length := List.length_pos.mpr
          (List.ne_nil_of_mem hmem)
        have hnextq : next ∈ s.queue := by rw [hqe]; exact List.mem_cons_self next rest
        have hnexta : next ∉ s.active := fun hc => hdisj hc hnextq
        refine ⟨by simp [hlen]; omega, fun _ => hq (by rw [hqe]; simp), ?_⟩
        · have hndrest : (next :: rest).Nodup := by rw [← hqe]; exact hndq
          rw [List.nodup_cons] at hndrest
          simp only [List.cons_append, List.nodup_cons]
          constructor
          · rw [List.mem_append]
            rintro (hc | hc)
            · exact hnexta (List.mem_of_mem_erase hc)
            · exact hndrest.1 hc
          · rw [List.nodup_append]
            refine ⟨hnda.erase j, hndrest.2, ?_⟩
            intro x hx hxr
            exact hdisj (List.mem_of_mem_erase hx) (by rw [hqe]; exact List.mem_cons_of_mem next hxr)
      | nil =>
        simp only [hmem, if_true, hqe, Option.some.injEq] at hstep
        subst hstep
        have hlen : (s.active.erase j).length = s.active.length - 1 :=
          List.length_erase_of_mem hmem
        have hael : 1 ≤ s.active.length := List.length_pos.mpr
          (List.ne_nil_of_mem hmem)
        refine ⟨by simp [hlen]; omega, by simp, ?_⟩
        · simp only [List.append_nil]
          exact hnda.erase j
    · simp [hmem] at hstep

/-- Every state reachable by a trace of semaphore events from an
invariant state satisfies the invariant. -/
theorem semRun_preserves {k : ℕ} :
    ∀ (events : List SemEvent) (s s2 : SemState),
      SemInv k s → semRun s events = some s2 → SemInv k s2 := by
  intro events
  induction events with
  | nil =>
    intro s s2 hinv hrun
    unfold semRun at hrun
    cases hrun
    exact hinv
  | cons e es ih =>
    intro s s2 hinv hrun
    unfold semRun at hrun
    cases hstep : semStep s e with
    | none => rw [hstep] at hrun; cases hrun
    | some s1 =>
      rw [hstep] at hrun
      exact ih s1 s2 (semStep_preserves hinv hstep) hrun

/-- C2.  The semaphore bounds concurrency: starting from
`new Semaphore(k)` (which holds exactly `k` permits), after any trace of
`acquire`/`release` events the program can produce, the number of
admitted-but-not-released callers never exceeds `k`.  Since every job
task wraps its `generateVideo`/`remixVideo` invocation between
`semaphore.acquire()` and `semaphore.release()`, at most `k` job
executions are ever simultaneously in flight, and every intermediate
instant of a run is itself the final state of a prefix trace. -/
theorem semaphore_concurrency_bound (k : ℕ) (events : List SemEvent) (s : SemState)
    (hrun : semRun (semInit k) events = some s) :
    s.active.length ≤ k ∧ (semInit k).permits = k := by
  have hinv0 : SemInv k (semInit k) := ⟨by simp [semInit], by simp [semInit], by simp [semInit]⟩
  obtain ⟨h1, -, -⟩ := semRun_preserves events (semInit k) s hinv0 hrun
  exact ⟨by omega, rfl⟩

/-- Witness for `semaphore_concurrency_bound`: a cap-2 semaphore with
three acquirers (the third must queue) and three releases. -/
theorem semaphore_concurrency_bound_witness :
    semRun (semInit 2) [.acq 0, .acq 1, .acq 2, .rel 0, .rel 1, .rel 2] =
      some ⟨2, [], []⟩ ∧
    (⟨2, [], []⟩ : SemState).active.length ≤ 2 ∧ (semInit 2).permits = 2 := by
  have h := semaphore_concurrency_bound 2 [.acq 0, .acq 1, .acq 2, .rel 0, .rel 1, .rel 2]
    ⟨2, [], []⟩ (by decide)
  exact ⟨by decide, h⟩

/-! ## Lemmas about `executeBatch` -/

/-- An outcome recorded by job task `i` carries index `i + 1`. -/
theorem recOf_index (cfg : BatchConfig) (allow : Bool) (cwd : String)
    (env : ℕ → JobFate) (i : ℕ) (r : BatchJobResult)
    (h : recOf cfg allow cwd env i = some r) : r.index = i + 1 := by
  unfold recOf recordJob at h
  cases henv : env i with
  | unrecorded => rw [henv] at h; simp at h
  | cancelledAtStart =>
    rw [henv] at h
    simp only [Option.some.injEq] at h
    rw [← h]
  | ran fs att =>
    rw [henv] at h
    cases hres : resolveOutputPath (cfg.jobs.getD i { prompt := "" }) i
        (effOutputDir cfg) allow cwd with
    | error e => rw [hres] at h; simp at h
    | ok p =>
      rw [hres] at h
      simp only [Option.some.injEq] at h
      rw [← h]
      exact runAttempts_fst_index (cfg.jobs.getD i { prompt := "" }) i
        (att (generateUniqueFilePath fs p)) (effRetryPolicy cfg).retryPatterns
        (effRetryPolicy cfg).retryDelay (effRetryPolicy cfg).maxRetries 0 0

/-- When `recordList` succeeds, the recorded outcomes are exactly the
per-job pushes, in job order. -/
theorem recordList_eq_filterMap (cfg : BatchConfig) (allow : Bool) (cwd : String)
    (env : ℕ → JobFate) :
    ∀ (l : List ℕ) (rs : List BatchJobResult),
      recordList cfg allow cwd env l = .ok rs →
      rs = l.filterMap (recOf cfg allow cwd env) := by
  intro l
  induction l with
  | nil =>
    intro rs h
    unfold recordList at h
    cases h
    rfl
  | cons i rest ih =>
    intro rs h
    unfold recordList at h
    cases hj : recordJob cfg allow cwd env i with
    | error e => rw [hj] at h; simp at h
    | ok pr =>
      rw [hj] at h
      obtain ⟨r?, res⟩ := pr
      cases hrest : recordList cfg allow cwd env rest with
      | error e => rw [hrest] at h; simp at h
      | ok rs2 =>
        rw [hrest] at h
        have hrec : recOf cfg allow cwd env i = r? := by
          unfold recOf; rw [hj]
        cases r? with
        | none =>
          simp only [Except.ok.injEq] at h
          rw [← h, List.filterMap_cons, hrec]
          exact ih rs2 hrest
        | some r =>
          simp only [Except.ok.injEq] at h
          rw [← h, List.filterMap_cons, hrec]
          rw [ih rs2 hrest]

/-- Mapping `index` over a filterMap of per-index outcomes gives the
shifted filter of the surviving indices. -/
theorem mapIndex_filterMap (h : ℕ → Option BatchJobResult)
    (hidx : ∀ i r, h i = some r → r.index = i + 1) :
    ∀ l : List ℕ, ((l.filterMap h).map fun r => r.index) =
      (l.filter fun i => (h i).isSome).map (fun i => i + 1) := by
  intro l
  induction l with
  | nil => rfl
  | cons i rest ih =>
    cases hi : h i with
    | none => simp [List.filterMap_cons, List.filter_cons, hi, ih]
    | some r => simp [List.filterMap_cons, List.filter_cons, hi, ih, hidx i r hi]

/-- Membership of `i + 1` in the shifted filtered range is the filter
predicate at `i`. -/
theorem contains_shifted_filter (p : ℕ → Bool) (N i : ℕ) (hiN : i < N) :
    ((((List.range N).filter p).map fun i => i + 1).contains (i + 1)) = p i := by
  have hmem : ((i + 1) ∈ ((List.range N).filter p).map fun i => i + 1) ↔ p i = true := by
    constructor
    · intro hm
      obtain ⟨x, hx, hxeq⟩ := List.mem_map.mp hm
      have hxi : x = i := by omega
      subst hxi
      exact (List.mem_filter.mp hx).2
    · intro hp
      exact List.mem_map.mpr ⟨i, List.mem_filter.mpr
        ⟨List.mem_range.mpr hiN, hp⟩, rfl⟩
  cases hp : p i with
  | true =>
    have := hmem.mpr hp
    simpa using this
  | false =>
    have : ¬ ((i + 1) ∈ ((List.range N).filter p).map fun i => i + 1) := by
      intro hc
      rw [hmem] at hc
      rw [hp] at hc
      cases hc
    simpa using this

/-- The synthesized outcomes are exactly those of the unrecorded
indices. -/
theorem synthesizeCancelled_eq (cfg : BatchConfig) (allow : Bool) (cwd : String)
    (env : ℕ → JobFate) :
    synthesizeCancelled cfg
        ((List.range cfg.jobs.length).filterMap (recOf cfg allow cwd env)) =
      (List.range cfg.jobs.length).filterMap fun i =>
        if (recOf cfg allow cwd env i).isSome then none
        else some (synRecord cfg i) := by
  unfold synthesizeCancelled
  apply List.filterMap_congr
  intro i hi
  have hiN : i < cfg.jobs.length := List.mem_range.mp hi
  rw [mapIndex_filterMap (recOf cfg allow cwd env)
    (fun j rr hj => recOf_index cfg allow cwd env j rr hj)]
  rw [contains_shifted_filter _ _ _ hiN]

/-- Every result status is one of the three terminal statuses, so the
three status filters partition any result list. -/
theorem status_partition :
    ∀ rs : List BatchJobResult,
      (rs.filter fun x => decide (x.status = JobStatus.completed)).length +
        (rs.filter fun x => decide (x.status = JobStatus.failed)).length +
        (rs.filter fun x => decide (x.status = JobStatus.cancelled)).length =
      rs.length := by
  intro rs
  induction rs with
  | nil => rfl
  | cons x rest ih =>
    cases hs : x.status <;> simp [List.filter_cons, hs] <;> omega

/-- Unfolding of a successful `executeBatch` run: the report's fields in
terms of the recorded and synthesized outcomes. -/
theorem executeBatch_ok_results (cfg : BatchConfig) (allow : Bool) (cwd : String)
    (env : ℕ → JobFate) (r : BatchResult)
    (h : executeBatch cfg allow cwd env = .ok r) :
    ∃ recorded,
      recordList cfg allow cwd env (List.range cfg.jobs.length) = .ok recorded ∧
      recorded = (List.range cfg.jobs.length).filterMap (recOf cfg allow cwd env) ∧
      r.results = (recorded ++ synthesizeCancelled cfg recorded).insertionSort byIndexLe ∧
      r.total = cfg.jobs.length ∧
      r.succeeded = (r.results.filter fun x => decide (x.status = JobStatus.completed)).length ∧
      r.failed = (r.results.filter fun x => decide (x.status = JobStatus.failed)).length ∧
      r.cancelled = (r.results.filter fun x => decide (x.status = JobStatus.cancelled)).length := by
  unfold executeBatch at h
  cases hrl : recordList cfg allow cwd env (List.range cfg.jobs.length) with
  | error e => rw [hrl] at h; simp at h
  | ok recorded =>
    rw [hrl] at h
    simp only [Except.ok.injEq] at h
    subst h
    exact ⟨recorded, rfl,
      recordList_eq_filterMap cfg allow cwd env (List.range cfg.jobs.length) recorded hrl,
      rfl, rfl, rfl, rfl, rfl⟩

/-- The indices of the recorded-plus-synthesized outcomes are a
permutation of `1 .. N`. -/
theorem executeBatch_perm_aux (cfg : BatchConfig) (allow : Bool) (cwd : String)
    (env : ℕ → JobFate) :
    ((((List.range cfg.jobs.length).filterMap (recOf cfg allow cwd env) ++
        synthesizeCancelled cfg
          ((List.range cfg.jobs.length).filterMap (recOf cfg allow cwd env))).map
        fun x => x.index)).Perm (List.range' 1 cfg.jobs.length) := by
  rw [List.map_append]
  rw [mapIndex_filterMap (recOf cfg allow cwd env)
    (fun j rr hj => recOf_index cfg allow cwd env j rr hj)]
  rw [synthesizeCancelled_eq cfg allow cwd env]
  rw [mapIndex_filterMap
    (fun i => if (recOf cfg allow cwd env i).isSome then none else some (synRecord cfg i))
    (fun j rr hj => by
      by_cases hp : (recOf cfg allow cwd env j).isSome
      · simp [hp] at hj
      · simp only [hp, if_false, Option.some.injEq, Bool.false_eq_true] at hj
        rw [← hj]
        rfl)]
  have hfilter2 : ((List.range cfg.jobs.length).filter fun i =>
      ((if (recOf cfg allow cwd env i).isSome then none
        else some (synRecord cfg i)) : Option BatchJobResult).isSome) =
      (List.range cfg.jobs.length).filter fun i =>
        !((fun j => (recOf cfg allow cwd env j).isSome) i) := by
    apply List.filter_congr
    intro x _
    by_cases hp : (recOf cfg allow cwd env x).isSome <;> simp [hp]
  rw [hfilter2]
  rw [← List.map_append]
  have hperm := (List.filter_append_perm
    (fun j => (recOf cfg allow cwd env j).isSome) (List.range cfg.jobs.length)).map
    (fun i => i + 1)
  refine hperm.trans ?_
  rw [List.range'_eq_map_range]
  have hmc : ((List.range cfg.jobs.length).map fun i => i + 1) =
      (List.range cfg.jobs.length).map (1 + ·) := by
    apply List.map_congr_left
    intro x _
    omega
  rw [hmc]

/-- The final report lists the indices `1 .. N` in ascending order. -/
theorem executeBatch_results_indices (cfg : BatchConfig) (allow : Bool) (cwd : String)
    (env : ℕ → JobFate) (r : BatchResult)
    (h : executeBatch cfg allow cwd env = .ok r) :
    (r.results.map fun x => x.index) = List.range' 1 cfg.jobs.length := by
  obtain ⟨recorded, hrl, hrec, hres, -, -, -, -⟩ :=
    executeBatch_ok_results cfg allow cwd env r h
  have hperm : ((r.results.map fun x => x.index)).Perm
      (List.range' 1 cfg.jobs.length) := by
    rw [hres, hrec]
    refine ((List.perm_insertionSort byIndexLe _).map fun x => x.index).trans ?_
    exact executeBatch_perm_aux cfg allow cwd env
  have hsorted : (r.results.map fun x => x.index).Pairwise (· ≤ ·) := by
    rw [hres]
    rw [List.pairwise_map]
    exact List.sorted_insertionSort byIndexLe
      (recorded ++ synthesizeCancelled cfg recorded)
  have hsorted2 : (List.range' 1 cfg.jobs.length).Pairwise
      (fun a b : ℕ => a ≤ b) :=
    (List.pairwise_lt_range' 1 cfg.jobs.length).imp fun hab => Nat.le_of_lt hab
  exact List.eq_of_perm_of_sorted hperm hsorted hsorted2

/-- C1.  For every batch of `N` jobs (`1 ≤ N ≤ 100`) whose
`executeBatch` run returns a report, the report contains exactly `N`
outcomes, their indices are `1 .. N` in ascending order (a sorted
permutation of `1..N`), and the counts satisfy
`succeeded + failed + cancelled = total = N`. -/
theorem executeBatch_report_partition (cfg : BatchConfig) (allow : Bool)
    (cwd : String) (env : ℕ → JobFate) (r : BatchResult)
    (hN1 : 1 ≤ cfg.jobs.length) (hN2 : cfg.jobs.length ≤ 100)
    (h : executeBatch cfg allow cwd env = .ok r) :
    r.total = cfg.jobs.length ∧
    r.results.length = cfg.jobs.length ∧
    (r.results.map fun x => x.index) = List.range' 1 cfg.jobs.length ∧
    r.succeeded + r.failed + r.cancelled = r.total := by
  obtain ⟨recorded, hrl, hrec, hres, htot, hs, hf, hc⟩ :=
    executeBatch_ok_results cfg allow cwd env r h
  have hidx := executeBatch_results_indices cfg allow cwd env r h
  have hlen : r.results.length = cfg.jobs.length := by
    have := congrArg List.length hidx
    simpa using this
  refine ⟨htot, hlen, hidx, ?_⟩
  rw [hs, hf, hc, htot, status_partition r.results, hlen]

/-- Witness for `executeBatch_report_partition`: the one-job batch in
which the single job never records an outcome. -/
theorem executeBatch_report_partition_witness :
    batchResultOne.total = cfgOneJob.jobs.length ∧
    batchResultOne.results.length = cfgOneJob.jobs.length ∧
    (batchResultOne.results.map fun x => x.index) =
      List.range' 1 cfgOneJob.jobs.length ∧
    batchResultOne.succeeded + batchResultOne.failed + batchResultOne.cancelled =
      batchResultOne.total :=
  executeBatch_report_partition cfgOneJob false "/work" envUnrecorded
    batchResultOne (by decide) (by decide) rfl

/-- Membership in the final report is membership in the recorded or
synthesized outcomes. -/
theorem executeBatch_mem_results (cfg : BatchConfig) (allow : Bool) (cwd : String)
    (env : ℕ → JobFate) (r : BatchResult)
    (h : executeBatch cfg allow cwd env = .ok r) (x : BatchJobResult) :
    x ∈ r.results ↔
      x ∈ (List.range cfg.jobs.length).filterMap (recOf cfg allow cwd env) ∨
      x ∈ synthesizeCancelled cfg
        ((List.range cfg.jobs.length).filterMap (recOf cfg allow cwd env)) := by
  obtain ⟨recorded, hrl, hrec, hres, -, -, -, -⟩ :=
    executeBatch_ok_results cfg allow cwd env r h
  rw [hres, hrec]
  rw [List.mem_insertionSort]
  exact List.mem_append

/-- C7 (amended).  After a successful `executeBatch` run: every job
index with no recorded outcome appears in the report as the synthesized
`cancelled` outcome with reason `"Batch timed out or cancelled"`;
synthesis never replaces a recorded outcome (every recorded outcome
survives into the report); and when no job records an outcome before
finalization — as with `timeout = 100 ms`, a 5-second grace window and
jobs taking 10 s — every reported outcome is `cancelled` with that
reason. -/
theorem executeBatch_timeout_synthesis (cfg : BatchConfig) (allow : Bool)
    (cwd : String) (env : ℕ → JobFate) (r : BatchResult)
    (h : executeBatch cfg allow cwd env = .ok r) :
    (∀ i, i < cfg.jobs.length → recOf cfg allow cwd env i = none →
      synRecord cfg i ∈ r.results) ∧
    (∀ i res, i < cfg.jobs.length → recOf cfg allow cwd env i = some res →
      res ∈ r.results) ∧
    ((∀ i, env i = .unrecorded) →
      ∀ x, x ∈ r.results →
        x.status = .cancelled ∧ x.error = some "Batch timed out or cancelled") := by
  refine ⟨?_, ?_, ?_⟩
  · intro i hiN hnone
    rw [executeBatch_mem_results cfg allow cwd env r h]
    right
    rw [synthesizeCancelled_eq cfg allow cwd env]
    refine List.mem_filterMap.mpr ⟨i, List.mem_range.mpr hiN, ?_⟩
    rw [hnone]
    rfl
  · intro i res hiN hsome
    rw [executeBatch_mem_results cfg allow cwd env r h]
    left
    exact List.mem_filterMap.mpr ⟨i, List.mem_range.mpr hiN, hsome⟩
  · intro hu x hx
    have hnone : ∀ i, recOf cfg allow cwd env i = none := by
      intro i
      unfold recOf recordJob
      rw [hu i]
    rw [executeBatch_mem_results cfg allow cwd env r h] at hx
    rcases hx with hx | hx
    · obtain ⟨a, -, ha⟩ := List.mem_filterMap.mp hx
      rw [hnone a] at ha
      cases ha
    · rw [synthesizeCancelled_eq cfg allow cwd env] at hx
      obtain ⟨a, -, ha⟩ := List.mem_filterMap.mp hx
      rw [hnone a] at ha
      simp only [Option.isSome_none, Bool.false_eq_true, if_false,
        Option.some.injEq] at ha
      rw [← ha]
      exact ⟨rfl, rfl⟩

/-- Witness for `executeBatch_timeout_synthesis`: in the one-job batch
whose job records nothing, the synthesized `cancelled` outcome appears in
the report. -/
theorem executeBatch_timeout_synthesis_witness :
    synRecord cfgOneJob 0 ∈ batchResultOne.results :=
  (executeBatch_timeout_synthesis cfgOneJob false "/work" envUnrecorded
    batchResultOne rfl).1 0 (by decide) rfl

/-- C7 counterexample: the reason string synthesized by the code is
`"Batch timed out or cancelled"` (capital `B`), not the claimed
`"batch timed out or cancelled"`. -/
theorem timeout_reason_case_counterexample :
    executeBatch cfgOneJob false "/work" envUnrecorded = .ok batchResultOne ∧
    (batchResultOne.results.map fun x => x.error) =
      [some "Batch timed out or cancelled"] ∧
    (("Batch timed out or cancelled" : String) ==
      "batch timed out or cancelled") = false :=
  ⟨rfl, rfl, by decide⟩

/-- C5 counterexample: a job whose `resolveOutputPath` throws (absolute
`output_path` outside the output directory) is not converted into a
`failed` outcome — the error escapes and `executeBatch` itself rejects,
reporting nothing. -/
theorem executeBatch_path_error_escapes :
    executeBatch cfgEvil false "/work" envRanOk =
      .error "Job 1: absolute output_path must be within output_dir. Use --allow-any-path to override." ∧
    resolutionEvents cfgEvil false "/work" envRanOk = [] :=
  ⟨rfl, rfl⟩

/-- When every running job's output path resolves, every job task
settles without rejecting. -/
theorem recordList_ok_of_paths (cfg : BatchConfig) (allow : Bool) (cwd : String)
    (env : ℕ → JobFate) :
    ∀ l : List ℕ,
      (∀ i ∈ l, ∀ fs att, env i = .ran fs att →
        ∃ p, resolveOutputPath (cfg.jobs.getD i { prompt := "" }) i
          (effOutputDir cfg) allow cwd = .ok p) →
      ∃ rs, recordList cfg allow cwd env l = .ok rs := by
  intro l
  induction l with
  | nil => intro _; exact ⟨[], rfl⟩
  | cons i rest ih =>
    intro hp
    have hjob : ∃ pr, recordJob cfg allow cwd env i = .ok pr := by
      unfold recordJob
      cases henv : env i with
      | unrecorded => exact ⟨(none, none), rfl⟩
      | cancelledAtStart => exact ⟨_, rfl⟩
      | ran fs att =>
        obtain ⟨p, hp2⟩ := hp i (List.mem_cons_self i rest) fs att henv
        rw [hp2]
        exact ⟨_, rfl⟩
    obtain ⟨pr, hpr⟩ := hjob
    obtain ⟨rs, hrs⟩ :=
      ih fun j hj fs att henv => hp j (List.mem_cons_of_mem i hj) fs att henv
    unfold recordList
    rw [hpr, hrs]
    obtain ⟨r?, res⟩ := pr
    cases r? with
    | some rr => exact ⟨_, rfl⟩
    | none => exact ⟨_, rfl⟩

/-- C5 (amended).  Errors raised inside job execution
(`executeJobWithRetry` catches every attempt failure) are contained at
the job boundary: whenever every running job's output path resolves,
`executeBatch` returns a report covering all `N` indices, and each
running job's own outcome — `failed` at worst — survives into the
report.  An error thrown by `resolveOutputPath` itself, by contrast,
escapes the job boundary (see `executeBatch_path_error_escapes`). -/
theorem executeBatch_containment_amended (cfg : BatchConfig) (allow : Bool)
    (cwd : String) (env : ℕ → JobFate)
    (hpaths : ∀ i, i < cfg.jobs.length → ∀ fs att, env i = .ran fs att →
      ∃ p, resolveOutputPath (cfg.jobs.getD i { prompt := "" }) i
        (effOutputDir cfg) allow cwd = .ok p) :
    ∃ r, executeBatch cfg allow cwd env = .ok r ∧
      r.results.length = cfg.jobs.length ∧
      (r.results.map fun x => x.index) = List.range' 1 cfg.jobs.length ∧
      (∀ i fs att, i < cfg.jobs.length → env i = .ran fs att →
        ∃ res, recOf cfg allow cwd env i = some res ∧ res ∈ r.results) := by
  obtain ⟨rs, hrs⟩ := recordList_ok_of_paths cfg allow cwd env
    (List.range cfg.jobs.length) fun i hi => hpaths i (List.mem_range.mp hi)
  have hok : ∃ r, executeBatch cfg allow cwd env = .ok r := by
    unfold executeBatch
    rw [hrs]
    exact ⟨_, rfl⟩
  obtain ⟨r, hr⟩ := hok
  have hidx := executeBatch_results_indices cfg allow cwd env r hr
  refine ⟨r, hr, ?_, hidx, ?_⟩
  · have := congrArg List.length hidx
    simpa using this
  · intro i fs att hiN henv
    obtain ⟨p, hp2⟩ := hpaths i hiN fs att henv
    refine ⟨(executeJobWithRetry (cfg.jobs.getD i { prompt := "" }) i
      (generateUniqueFilePath fs p) att (effRetryPolicy cfg)).1, ?_, ?_⟩
    · unfold recOf recordJob
      rw [henv, hp2]
    · rw [executeBatch_mem_results cfg allow cwd env r hr]
      left
      refine List.mem_filterMap.mpr ⟨i, List.mem_range.mpr hiN, ?_⟩
      unfold recOf recordJob
      rw [henv, hp2]

/-- Witness for `executeBatch_containment_amended`: a one-job batch
whose job fails every attempt with a non-retryable error still yields a
full report with the job's own `failed` outcome. -/
theorem executeBatch_containment_amended_witness :
    ∃ r, executeBatch cfgOneJob false "/work" envRanFail = .ok r ∧
      r.results.length = cfgOneJob.jobs.length ∧
      (r.results.map fun x => x.index) = List.range' 1 cfgOneJob.jobs.length ∧
      (∀ i fs att, i < cfgOneJob.jobs.length → envRanFail i = .ran fs att →
        ∃ res, recOf cfgOneJob false "/work" envRanFail i = some res ∧
          res ∈ r.results) :=
  executeBatch_containment_amended cfgOneJob false "/work" envRanFail (by
    intro i hi fs att henv
    have h0 : i = 0 := by
      have : cfgOneJob.jobs.length = 1 := rfl
      omega
    subst h0
    exact ⟨_, rfl⟩)

/-- C6 counterexample: under `cfgDup`/`envDup`, the two concurrently
admitted jobs reserve the *same* de-collided output path (the file does
not exist yet for either), and the job cancelled before running (index
3) records a `cancelled` outcome while the resolution-event list shows
it reserved no filename. -/
theorem eager_path_reservation_counterexample :
    resolutionEvents cfgDup false "/work" envDup =
      [(0, "./output/v.mp4"), (1, "./output/v.mp4")] ∧
    recOf cfgDup false "/work" envDup 2 =
      some { index := 3
             prompt := "c"
             status := .cancelled
             error := some "Batch timed out before job started" } :=
  ⟨rfl, rfl⟩

/-- C6 (amended).  A job's output path is resolved and de-collided right
after admission (after `semaphore.acquire()` and the timed-out check)
and before execution, and the execution attempts receive exactly the
reserved path; de-collision consults only the files existing at
resolution time; a job admitted after the timed-out flag, or one that
never reached its body, reserves no filename. -/
theorem resolution_at_admission (cfg : BatchConfig) (allow : Bool) (cwd : String)
    (env : ℕ → JobFate) :
    (∀ i fs att p, i < cfg.jobs.length → env i = .ran fs att →
      resolveOutputPath (cfg.jobs.getD i { prompt := "" }) i
        (effOutputDir cfg) allow cwd = .ok p →
      (i, generateUniqueFilePath fs p) ∈ resolutionEvents cfg allow cwd env ∧
      recOf cfg allow cwd env i =
        some (executeJobWithRetry (cfg.jobs.getD i { prompt := "" }) i
          (generateUniqueFilePath fs p) att (effRetryPolicy cfg)).1) ∧
    (∀ i x, env i = .cancelledAtStart ∨ env i = .unrecorded →
      (i, x) ∉ resolutionEvents cfg allow cwd env) := by
  constructor
  · intro i fs att p hiN henv hres
    constructor
    · unfold resolutionEvents
      refine List.mem_filterMap.mpr ⟨i, List.mem_range.mpr hiN, ?_⟩
      unfold recordJob
      rw [henv, hres]
    · unfold recOf recordJob
      rw [henv, hres]
  · intro i x hdisj hmem
    unfold resolutionEvents at hmem
    obtain ⟨a, -, ha⟩ := List.mem_filterMap.mp hmem
    cases hja : recordJob cfg allow cwd env a with
    | error e => rw [hja] at ha; cases ha
    | ok pr =>
      rw [hja] at ha
      obtain ⟨r?, res⟩ := pr
      unfold recordJob at hja
      cases henv : env a with
      | unrecorded =>
        rw [henv] at hja
        simp only [Except.ok.injEq, Prod.mk.injEq] at hja
        rw [← hja.2] at ha
        cases ha
      | cancelledAtStart =>
        rw [henv] at hja
        simp only [Except.ok.injEq, Prod.mk.injEq] at hja
        rw [← hja.2] at ha
        cases ha
      | ran fs att =>
        cases hres : resolveOutputPath (cfg.jobs.getD a { prompt := "" }) a
            (effOutputDir cfg) allow cwd with
        | error e => rw [henv, hres] at hja; cases hja
        | ok p =>
          rw [henv, hres] at hja
          simp only [Except.ok.injEq, Prod.mk.injEq] at hja
          rw [← hja.2] at ha
          simp only [Option.some.injEq, Prod.mk.injEq] at ha
          have hai : a = i := ha.1
          subst hai
          rw [henv] at hdisj
          rcases hdisj with hc | hc <;> cases hc

/-- Witness for `resolution_at_admission`: in `cfgDup` the first job's
reservation event is present. -/
theorem resolution_at_admission_witness :
    ((0 : ℕ), "./output/v.mp4") ∈ resolutionEvents cfgDup false "/work" envDup :=
  ((resolution_at_admission cfgDup false "/work" envDup).1 0 []
    (fun _ _ => ⟨.ok {}, 1⟩) "./output/v.mp4" (by decide) rfl rfl).1

end SoraBatch
